import Mathlib

/-!
Verification of the validation engine and rule catalogue of the
@aminnairi/validation library (src/sources/index.ts), as a shallow
embedding: JavaScript values become an inductive `Value` type, target
objects become association lists, promises that may reject become
`Except String`, and the regular expressions of the source are
transcribed as regex ASTs evaluated by a Brzozowski-derivative matcher.
-/

namespace Validation

/-- JavaScript runtime values, restricted to the shapes the library's
rules inspect: numbers, strings, and the undefined value produced by
looking up an absent property.  Numbers are modelled as integers. -/
inductive Value where
  | num (n : Int)
  | str (s : String)
  | undefined
deriving DecidableEq

/-- `typeof value === "number"` from the source rules. -/
def Value.isNumberType : Value → Bool
  | .num _ => true
  | _ => false

/-- `typeof value === "string"` from the source rules. -/
def Value.isStringType : Value → Bool
  | .str _ => true
  | _ => false

/-- A target object: an association list from property names to values,
mirroring a plain JavaScript object. -/
abbrev Target := List (String × Value)

/-- `target[property]`: property lookup on a JavaScript object, which
yields `undefined` when the key is absent. -/
def getProp (t : Target) (property : String) : Value :=
  match t.find? (fun entry => entry.1 == property) with
  | some entry => entry.2
  | none => .undefined

/-- The `Rule` interface (src/sources/index.ts line 19): `isValid`
receives the full target, the property name and the looked-up value and
asynchronously produces a boolean.  The promise may reject, which the
embedding renders as `Except.error` carrying the rejection reason. -/
structure Rule where
  isValid : Target → String → Value → Except String Bool

/-- A schema: properties in insertion order, each carrying its named
rules in insertion order (the `Schema` mapped type of the source). -/
abbrev Schema := List (String × List (String × Rule))

/-! ### Regular expressions

The email rule of the source tests a hand-rolled regular expression.
We transcribe it as an AST over character classes and run it with a
Brzozowski-derivative matcher; `rmatch` decides whether the whole string
is in the language, which is what `regex.test` does for a pattern
anchored by both `^` and `$`. -/

/-- Regex AST: empty language, empty string, a single character drawn
from a class, concatenation, alternation, Kleene star. -/
inductive Regex where
  | void
  | eps
  | cls (p : Char → Bool)
  | cat (a b : Regex)
  | alt (a b : Regex)
  | star (a : Regex)

/-- Smart concatenation, simplifying the units and the empty language. -/
def scat : Regex → Regex → Regex
  | .void, _ => .void
  | .eps, b => b
  | a, b =>
    match b with
    | .void => .void
    | .eps => a
    | b => .cat a b

/-- Smart alternation, simplifying the empty language. -/
def salt : Regex → Regex → Regex
  | .void, b => b
  | a, b =>
    match b with
    | .void => a
    | b => .alt a b

/-- Does the regex accept the empty string? -/
def nullable : Regex → Bool
  | .void => false
  | .eps => true
  | .cls _ => false
  | .cat a b => nullable a && nullable b
  | .alt a b => nullable a || nullable b
  | .star _ => true

/-- Brzozowski derivative of a regex with respect to one character. -/
def deriv : Regex → Char → Regex
  | .void, _ => .void
  | .eps, _ => .void
  | .cls p, c => if p c then .eps else .void
  | .cat a b, c =>
      if nullable a then salt (scat (deriv a c) b) (deriv b c)
      else scat (deriv a c) b
  | .alt a b, c => salt (deriv a c) (deriv b c)
  | .star a, c => scat (deriv a c) (.star a)

/-- Whole-string match: fold the derivative over the characters and ask
whether the residual regex accepts the empty string. -/
def rmatch (r : Regex) (s : String) : Bool :=
  nullable (s.toList.foldl deriv r)

/-- A literal character. -/
def rchar (c : Char) : Regex := .cls (fun x => x == c)

/-- One or more repetitions, the regex `+` quantifier. -/
def rplus (r : Regex) : Regex := .cat r (.star r)

/-! ### The email pattern (src/sources/index.ts line 109)

The source pattern is, written with its byte escapes expanded:

  ^(W|Q)(\x2e(W|Q))*\x40(W|B)(\x2e(W|B))*(\.\w\x7b2,\x7d)+$

where W is the word class [^\x00-\x20\x22\x28\x29\x2c\x2e\x3a-\x3c\x3e\x40\x5b-\x5d\x7f-\xff]+,
Q is the quoted form \x22([^\x0d\x22\x5c\x80-\xff]|\x5c[\x00-\x7f])*\x22,
and B is the bracketed form \x5b([^\x0d\x5b-\x5d\x80-\xff]|\x5c[\x00-\x7f])*\x5d. -/

/-- The negated class [^\x00-\x20\x22\x28\x29\x2c\x2e\x3a-\x3c\x3e\x40\x5b-\x5d\x7f-\xff]. -/
def emailWordChar (c : Char) : Bool :=
  let n := c.toNat
  !(n ≤ 0x20 || n == 0x22 || n == 0x28 || n == 0x29 || n == 0x2c || n == 0x2e ||
    (0x3a ≤ n && n ≤ 0x3c) || n == 0x3e || n == 0x40 ||
    (0x5b ≤ n && n ≤ 0x5d) || (0x7f ≤ n && n ≤ 0xff))

/-- The negated class [^\x0d\x22\x5c\x80-\xff] inside the quoted form. -/
def quotedChar (c : Char) : Bool :=
  let n := c.toNat
  !(n == 0x0d || n == 0x22 || n == 0x5c || (0x80 ≤ n && n ≤ 0xff))

/-- The negated class [^\x0d\x5b-\x5d\x80-\xff] inside the bracketed form. -/
def bracketChar (c : Char) : Bool :=
  let n := c.toNat
  !(n == 0x0d || (0x5b ≤ n && n ≤ 0x5d) || (0x80 ≤ n && n ≤ 0xff))

/-- The class [\x00-\x7f] that may follow a backslash escape. -/
def asciiChar (c : Char) : Bool := c.toNat ≤ 0x7f

/-- The class \w, i.e. [A-Za-z0-9_]. -/
def wordChar (c : Char) : Bool :=
  let n := c.toNat
  (0x41 ≤ n && n ≤ 0x5a) || (0x61 ≤ n && n ≤ 0x7a) || (0x30 ≤ n && n ≤ 0x39) || n == 0x5f

/-- W: one or more email word characters. -/
def emailWord : Regex := rplus (.cls emailWordChar)

/-- \x5c[\x00-\x7f]: a backslash escape. -/
def escapePair : Regex := .cat (rchar '\\') (.cls asciiChar)

/-- Q: \x22([^\x0d\x22\x5c\x80-\xff]|\x5c[\x00-\x7f])*\x22. -/
def quotedForm : Regex :=
  .cat (rchar '"') (.cat (.star (.alt (.cls quotedChar) escapePair)) (rchar '"'))

/-- B: \x5b([^\x0d\x5b-\x5d\x80-\xff]|\x5c[\x00-\x7f])*\x5d. -/
def bracketForm : Regex :=
  .cat (rchar '[') (.cat (.star (.alt (.cls bracketChar) escapePair)) (rchar ']'))

/-- A local-part atom: W|Q. -/
def localAtom : Regex := .alt emailWord quotedForm

/-- A domain atom: W|B. -/
def domainAtom : Regex := .alt emailWord bracketForm

/-- (\.\w\x7b2,\x7d): a dot followed by at least two word characters. -/
def tldPart : Regex := .cat (rchar '.') (.cat (.cls wordChar) (rplus (.cls wordChar)))

/-- The full anchored email pattern of the source. -/
def emailRegex : Regex :=
  .cat localAtom (.cat (.star (.cat (rchar '.') localAtom))
    (.cat (rchar '@') (.cat domainAtom (.cat (.star (.cat (rchar '.') domainAtom))
      (rplus tldPart)))))

/-! ### The password pattern (src/sources/index.ts line 115)

The source builds `new RegExp` from a template literal whose text is
the fixed pattern ^(?=.*[0-9])(?=.*[a-z])(?=.*[A-Z])(?=.*[^0-9a-zA-Z]).\x7b8,\x7d$ :
the `minimum` argument of `isPassword` is never interpolated into it.
Each lookahead (?=.*[C]) holds at the start of the string exactly when
some character of class C occurs with only non-line-terminator
characters before it, and .\x7b8,\x7d$ requires the whole string to be
at least eight non-line-terminator characters.  We translate each piece
of that semantics directly. -/

/-- The class the unflagged `.` matches: any character except the
JavaScript line terminators. -/
def jsDot (c : Char) : Bool :=
  !(c.toNat == 0x0a || c.toNat == 0x0d || c.toNat == 0x2028 || c.toNat == 0x2029)

/-- [0-9]. -/
def digitChar (c : Char) : Bool := 0x30 ≤ c.toNat && c.toNat ≤ 0x39

/-- [a-z]. -/
def lowerChar (c : Char) : Bool := 0x61 ≤ c.toNat && c.toNat ≤ 0x7a

/-- [A-Z]. -/
def upperChar (c : Char) : Bool := 0x41 ≤ c.toNat && c.toNat ≤ 0x5a

/-- [^0-9a-zA-Z]. -/
def symbolChar (c : Char) : Bool := !(digitChar c || lowerChar c || upperChar c)

/-- Does `.*[p]` match a prefix of the character list, i.e. does a
character satisfying `p` occur preceded only by `jsDot` characters?
This is the meaning of the lookahead (?=.*[p]) at the start anchor. -/
def lookaheadDotStar (p : Char → Bool) : List Char → Bool
  | [] => false
  | c :: cs => p c || (jsDot c && lookaheadDotStar p cs)

/-- The password pattern as a whole-string test. -/
def passwordTest (s : String) : Bool :=
  lookaheadDotStar digitChar s.toList &&
  lookaheadDotStar lowerChar s.toList &&
  lookaheadDotStar upperChar s.toList &&
  lookaheadDotStar symbolChar s.toList &&
  decide (8 ≤ s.toList.length) && s.toList.all jsDot

/-! ### The rule catalogue (the constructors the claims mention) -/

/-- isNumberEqualTo (line 47): typeof value === "number" && expectedValue === value. -/
def isNumberEqualTo (expectedValue : Int) : Rule :=
  { isValid := fun _target _property value =>
      .ok (value.isNumberType && decide (Value.num expectedValue = value)) }

/-- isEqualToProperty (line 83): target[otherProperty] === value. -/
def isEqualToProperty (otherProperty : String) : Rule :=
  { isValid := fun target _property value =>
      .ok (decide (getProp target otherProperty = value)) }

/-- isEmail (line 107): typeof value === "string" && emailRegex.test(value). -/
def isEmail : Rule :=
  { isValid := fun _target _property value =>
      .ok (match value with
        | .str s => rmatch emailRegex s
        | _ => false) }

set_option linter.unusedVariables false in
/-- isPassword (line 113): the `minimum` parameter (default 8) is
accepted but, as in the source, never used: the tested pattern is the
fixed `passwordTest`. -/
def isPassword (minimum : Nat := 8) : Rule :=
  { isValid := fun _target _property value =>
      .ok (match value with
        | .str s => passwordTest s
        | _ => false) }

/-- The body of doesMatch and doesNotMatch wraps the test in
try/catch and returns false when the matching attempt throws; the
RegExp#test capability is modelled as a possibly-throwing function. -/
def tryCatchFalse (e : Except String Bool) : Bool :=
  match e with
  | .ok b => b
  | .error _ => false

/-- doesMatch (line 119): try \x7b typeof value === "string" &&
regex.test(value) \x7d catch \x7b false \x7d. -/
def doesMatch (test : String → Except String Bool) : Rule :=
  { isValid := fun _target _property value =>
      .ok (match value with
        | .str s => tryCatchFalse (test s)
        | _ => false) }

/-- doesNotMatch (line 131): like doesMatch with the test negated
inside the same try/catch. -/
def doesNotMatch (test : String → Except String Bool) : Rule :=
  { isValid := fun _target _property value =>
      .ok (match value with
        | .str s => tryCatchFalse ((test s).map (fun b => !b))
        | _ => false) }

/-! ### The validation engine (createValidator, lines 143-228)

A report for one property is the object built by `validate`: one
boolean per rule name, in schema order, plus the aggregate `isValid`
key.  The engine's `initialValidation` object (lines 144-157) is built
differently: its per-property objects contain only the rule-name keys
seeded false — the source spreads `Object.fromEntries` over the rule
names alone and adds no property-level `isValid` key (the declared
`SchemaValidations` type claims one, behind two `as` casts). -/

/-- A per-property report object of `validate`: rule outcomes in schema
order plus the property-level aggregate `isValid` key. -/
structure PropReport where
  rules : List (String × Bool)
  isValid : Bool
deriving DecidableEq

/-- The full report of `validate`: per-property objects plus the
top-level aggregate `isValid` key. -/
structure Report where
  props : List (String × PropReport)
  isValid : Bool
deriving DecidableEq

/-- The `initialValidation` object: per-property objects holding only
rule-name keys, plus the top-level `isValid` key. -/
structure InitialValidation where
  props : List (String × List (String × Bool))
  isValid : Bool
deriving DecidableEq

/-- Lines 144-157: for every property, map every rule name to false;
with top-level isValid false.  No per-property isValid key is seeded. -/
def initialValidation (schema : Schema) : InitialValidation :=
  { props := schema.map (fun entry =>
      (entry.1, entry.2.map (fun ruleEntry => (ruleEntry.1, false)))),
    isValid := false }

/-- The inner loop of `validate` (lines 183-216) over one property's
rules: each rule's promise is awaited in order, so a rejection aborts
the pass; otherwise every rule name is written with its outcome, and
the running `isValidProperty` flag is the conjunction of the outcomes. -/
def validateRules (t : Target) (property : String) (value : Value) :
    List (String × Rule) → Except String (List (String × Bool) × Bool)
  | [] => .ok ([], true)
  | (ruleName, rule) :: rest =>
    match rule.isValid t property value with
    | .error e => .error e
    | .ok outcome =>
      match validateRules t property value rest with
      | .error e => .error e
      | .ok (restOutcomes, restValid) =>
          .ok ((ruleName, outcome) :: restOutcomes, outcome && restValid)

/-- The outer loop of `validate` (lines 177-217): for each property in
schema order, look the value up once, run the rules, and record the
per-property aggregate; the running global flag is the conjunction of
the per-property aggregates. -/
def validateProps (t : Target) :
    List (String × List (String × Rule)) →
    Except String (List (String × PropReport) × Bool)
  | [] => .ok ([], true)
  | (property, rules) :: rest =>
    match validateRules t property (getProp t property) rules with
    | .error e => .error e
    | .ok (ruleOutcomes, isValidProperty) =>
      match validateProps t rest with
      | .error e => .error e
      | .ok (restReports, restValid) =>
          .ok ((property, ⟨ruleOutcomes, isValidProperty⟩) :: restReports,
               isValidProperty && restValid)

/-- `validate(target)` (lines 159-222): runs every rule of every
property and assembles the fresh report; any rule rejection propagates
(there is no catch in the engine) and then no report is produced. -/
def validate (schema : Schema) (t : Target) : Except String Report :=
  match validateProps t schema with
  | .error e => .error e
  | .ok (props, isValid) => .ok ⟨props, isValid⟩

/-! ### Concrete schemas used by the spec's scenarios -/

/-- Scenario schema: one email property with one isEmail rule. -/
def schemaEmail : Schema := [("email", [("isValidEmail", isEmail)])]

/-- Scenario schema: one answer property with one isNumberEqualTo 42 rule. -/
def schemaAnswer : Schema := [("answer", [("isValidAnswer", isNumberEqualTo 42)])]

/-- The JavaScript key list of a per-property report object of
`validate`: the rule names followed by the aggregate isValid key. -/
def PropReport.keys (p : PropReport) : List String :=
  p.rules.map Prod.fst ++ ["isValid"]

/-- The JavaScript key list of a per-property object of
`initialValidation`: only the rule names. -/
def initPropKeys (entry : List (String × Bool)) : List String :=
  entry.map Prod.fst

/-- A matching capability that always throws, exercising the try/catch
of doesMatch and doesNotMatch. -/
def throwingTest : String → Except String Bool := fun _ => .error "thrown"

/-- A badly-authored rule whose promise always rejects. -/
def failingRule : Rule := { isValid := fun _ _ _ => .error "rejected" }

/-- A schema containing the always-rejecting rule. -/
def schemaFailing : Schema := [("x", [("alwaysRejects", failingRule)])]

/-! ### General facts about the engine -/

/-- The correspondence `validateRules` establishes between a schema
rule entry and a report entry: same name, and the boolean is the value
the rule's promise resolved to. -/
abbrev RuleOutcome (t : Target) (p : String) (v : Value)
    (re : String × Rule) (be : String × Bool) : Prop :=
  be.1 = re.1 ∧ re.2.isValid t p v = Except.ok be.2

/-- The correspondence `validateProps` establishes between a schema
property entry and a report property entry: same name, rule outcomes
matching `RuleOutcome` at the looked-up value, and the property-level
isValid equal to the conjunction of the rule outcomes. -/
abbrev PropOutcome (t : Target) (se : String × List (String × Rule))
    (pe : String × PropReport) : Prop :=
  pe.1 = se.1 ∧
  List.Forall₂ (RuleOutcome t se.1 (getProp t se.1)) se.2 pe.2.rules ∧
  pe.2.isValid = (pe.2.rules.map Prod.snd).all (fun b => b)

theorem forall₂_mem_right {α β : Type} {R : α → β → Prop} {l₁ : List α}
    {l₂ : List β} (h : List.Forall₂ R l₁ l₂) {b : β} (hb : b ∈ l₂) :
    ∃ a, a ∈ l₁ ∧ R a b := by
  induction h with
  | nil => cases hb
  | cons hR hrest ih =>
    rcases List.mem_cons.mp hb with rfl | hb2
    · exact ⟨_, List.mem_cons_self _ _, hR⟩
    · obtain ⟨a, ha, hab⟩ := ih hb2
      exact ⟨a, List.mem_cons_of_mem _ ha, hab⟩

theorem forall₂_mem_left {α β : Type} {R : α → β → Prop} {l₁ : List α}
    {l₂ : List β} (h : List.Forall₂ R l₁ l₂) {a : α} (ha : a ∈ l₁) :
    ∃ b, b ∈ l₂ ∧ R a b := by
  induction h with
  | nil => cases ha
  | cons hR hrest ih =>
    rcases List.mem_cons.mp ha with rfl | ha2
    · exact ⟨_, List.mem_cons_self _ _, hR⟩
    · obtain ⟨b, hb, hab⟩ := ih ha2
      exact ⟨b, List.mem_cons_of_mem _ hb, hab⟩

theorem forall₂_map_eq {α β γ : Type} {R : α → β → Prop} {l₁ : List α}
    {l₂ : List β} (h : List.Forall₂ R l₁ l₂) (f : α → γ) (g : β → γ)
    (hfg : ∀ a b, R a b → g b = f a) : l₂.map g = l₁.map f := by
  induction h with
  | nil => rfl
  | cons hR hrest ih => simp [List.map_cons, hfg _ _ hR, ih]

theorem validateRules_ok_spec (t : Target) (p : String) (v : Value)
    (rules : List (String × Rule)) (bs : List (String × Bool)) (agg : Bool)
    (h : validateRules t p v rules = .ok (bs, agg)) :
    List.Forall₂ (RuleOutcome t p v) rules bs ∧
    agg = (bs.map Prod.snd).all (fun b => b) := by
  induction rules generalizing bs agg with
  | nil =>
    simp only [validateRules, Except.ok.injEq, Prod.mk.injEq] at h
    obtain ⟨rfl, rfl⟩ := h
    exact ⟨List.Forall₂.nil, rfl⟩
  | cons head rest ih =>
    obtain ⟨ruleName, rule⟩ := head
    cases h1 : rule.isValid t p v with
    | error e => simp [validateRules, h1] at h
    | ok outcome =>
      cases h2 : validateRules t p v rest with
      | error e => simp [validateRules, h1, h2] at h
      | ok pr =>
        obtain ⟨restOutcomes, restValid⟩ := pr
        simp only [validateRules, h1, h2, Except.ok.injEq, Prod.mk.injEq] at h
        obtain ⟨rfl, rfl⟩ := h
        obtain ⟨hf, hagg⟩ := ih restOutcomes restValid h2
        refine ⟨List.Forall₂.cons ⟨rfl, h1⟩ hf, ?_⟩
        simp [List.all_cons, hagg]

theorem validateRules_total (t : Target) (p : String) (v : Value)
    (rules : List (String × Rule))
    (hall : ∀ rn rule, (rn, rule) ∈ rules → ∃ b, rule.isValid t p v = .ok b) :
    ∃ bs agg, validateRules t p v rules = .ok (bs, agg) := by
  induction rules with
  | nil => exact ⟨[], true, rfl⟩
  | cons head rest ih =>
    obtain ⟨ruleName, rule⟩ := head
    obtain ⟨b, hb⟩ := hall ruleName rule (List.mem_cons_self _ _)
    obtain ⟨bs, agg, hrest⟩ := ih (fun rn r hr => hall rn r (List.mem_cons_of_mem _ hr))
    exact ⟨(ruleName, b) :: bs, b && agg, by simp [validateRules, hb, hrest]⟩

theorem validateRules_error_spec (t : Target) (p : String) (v : Value)
    (rules : List (String × Rule)) (e : String)
    (h : validateRules t p v rules = .error e) :
    ∃ rn rule, (rn, rule) ∈ rules ∧ rule.isValid t p v = .error e := by
  induction rules with
  | nil => simp [validateRules] at h
  | cons head rest ih =>
    obtain ⟨ruleName, rule⟩ := head
    cases h1 : rule.isValid t p v with
    | error e2 =>
      simp only [validateRules, h1, Except.error.injEq] at h
      exact ⟨ruleName, rule, List.mem_cons_self _ _, h ▸ h1⟩
    | ok outcome =>
      cases h2 : validateRules t p v rest with
      | error e2 =>
        simp only [validateRules, h1, h2, Except.error.injEq] at h
        obtain ⟨rn, rule2, hmem, herr⟩ := ih (h ▸ h2)
        exact ⟨rn, rule2, List.mem_cons_of_mem _ hmem, herr⟩
      | ok pr =>
        obtain ⟨restOutcomes, restValid⟩ := pr
        simp [validateRules, h1, h2] at h

theorem validateProps_ok_spec (t : Target) (schema : Schema)
    (props : List (String × PropReport)) (agg : Bool)
    (h : validateProps t schema = .ok (props, agg)) :
    List.Forall₂ (PropOutcome t) schema props ∧
    agg = (props.map (fun pe => pe.2.isValid)).all (fun b => b) := by
  induction schema generalizing props agg with
  | nil =>
    simp only [validateProps, Except.ok.injEq, Prod.mk.injEq] at h
    obtain ⟨rfl, rfl⟩ := h
    exact ⟨List.Forall₂.nil, rfl⟩
  | cons head rest ih =>
    obtain ⟨property, rules⟩ := head
    cases h1 : validateRules t property (getProp t property) rules with
    | error e => simp [validateProps, h1] at h
    | ok pr1 =>
      obtain ⟨ruleOutcomes, isValidProperty⟩ := pr1
      cases h2 : validateProps t rest with
      | error e => simp [validateProps, h1, h2] at h
      | ok pr2 =>
        obtain ⟨restReports, restValid⟩ := pr2
        simp only [validateProps, h1, h2, Except.ok.injEq, Prod.mk.injEq] at h
        obtain ⟨rfl, rfl⟩ := h
        obtain ⟨hfr, haggr⟩ := validateRules_ok_spec t property (getProp t property)
          rules ruleOutcomes isValidProperty h1
        obtain ⟨hf, hagg⟩ := ih restReports restValid h2
        refine ⟨List.Forall₂.cons ⟨rfl, hfr, haggr⟩ hf, ?_⟩
        simp [List.all_cons, hagg]

theorem validateProps_total (t : Target) (schema : Schema)
    (hall : ∀ p rules, (p, rules) ∈ schema → ∀ rn rule, (rn, rule) ∈ rules →
      ∃ b, rule.isValid t p (getProp t p) = .ok b) :
    ∃ props agg, validateProps t schema = .ok (props, agg) := by
  induction schema with
  | nil => exact ⟨[], true, rfl⟩
  | cons head rest ih =>
    obtain ⟨property, rules⟩ := head
    obtain ⟨bs, agg1, h1⟩ := validateRules_total t property (getProp t property) rules
      (hall property rules (List.mem_cons_self _ _))
    obtain ⟨props, agg2, h2⟩ := ih
      (fun p rs hp rn r hr => hall p rs (List.mem_cons_of_mem _ hp) rn r hr)
    exact ⟨(property, ⟨bs, agg1⟩) :: props, agg1 && agg2,
      by simp [validateProps, h1, h2]⟩

theorem validateProps_error_spec (t : Target) (schema : Schema) (e : String)
    (h : validateProps t schema = .error e) :
    ∃ p rules rn rule, (p, rules) ∈ schema ∧ (rn, rule) ∈ rules ∧
      rule.isValid t p (getProp t p) = .error e := by
  induction schema with
  | nil => simp [validateProps] at h
  | cons head rest ih =>
    obtain ⟨property, rules⟩ := head
    cases h1 : validateRules t property (getProp t property) rules with
    | error e2 =>
      simp only [validateProps, h1, Except.error.injEq] at h
      obtain ⟨rn, rule, hmem, herr⟩ :=
        validateRules_error_spec t property (getProp t property) rules e (h ▸ h1)
      exact ⟨property, rules, rn, rule, List.mem_cons_self _ _, hmem, herr⟩
    | ok pr1 =>
      obtain ⟨ruleOutcomes, isValidProperty⟩ := pr1
      cases h2 : validateProps t rest with
      | error e2 =>
        simp only [validateProps, h1, h2, Except.error.injEq] at h
        obtain ⟨p, rs, rn, rule, hp, hr, herr⟩ := ih (h ▸ h2)
        exact ⟨p, rs, rn, rule, List.mem_cons_of_mem _ hp, hr, herr⟩
      | ok pr2 =>
        obtain ⟨restReports, restValid⟩ := pr2
        simp [validateProps, h1, h2] at h

/-- If `validate` resolves, the report it resolves to is exactly
characterized: its property entries correspond one-to-one and in order
to the schema's, and its aggregates are the stated conjunctions. -/
theorem validate_ok_spec (schema : Schema) (t : Target) (r : Report)
    (h : validate schema t = .ok r) :
    List.Forall₂ (PropOutcome t) schema r.props ∧
    r.isValid = (r.props.map (fun pe => pe.2.isValid)).all (fun b => b) := by
  cases h1 : validateProps t schema with
  | error e => simp [validate, h1] at h
  | ok pr =>
    obtain ⟨props, agg⟩ := pr
    simp only [validate, h1, Except.ok.injEq] at h
    obtain ⟨hf, hagg⟩ := validateProps_ok_spec t schema props agg h1
    subst h
    exact ⟨hf, hagg⟩

/-- If `validate` resolves, every rule of the schema resolved to a
boolean at the value looked up for its property. -/
theorem validate_ok_rules_ok (schema : Schema) (t : Target) (r : Report)
    (h : validate schema t = .ok r) :
    ∀ p rules, (p, rules) ∈ schema → ∀ rn rule, (rn, rule) ∈ rules →
      ∃ b, rule.isValid t p (getProp t p) = .ok b := by
  intro p rules hp rn rule hr
  obtain ⟨hf, _⟩ := validate_ok_spec schema t r h
  obtain ⟨pe, _, hname, hrules, _⟩ := forall₂_mem_left hf hp
  obtain ⟨be, _, _, hok⟩ := forall₂_mem_left hrules hr
  exact ⟨be.2, hok⟩

/-! ### The claims -/

/-- C1: the claim says isPassword(m).isValid is true iff the string has
length at least m and one lowercase, one uppercase, one digit and one
symbol, the minimum being parameterizable with default 8.  The code
never interpolates `minimum` into the pattern: isPassword(10) accepts a
nine-character string, and isPassword(0) rejects a four-character string
containing all four classes. -/
theorem isPassword_minimum_ignored :
    (isPassword 10).isValid [] "password" (Value.str "Aa1!aaaaa") = Except.ok true ∧
    "Aa1!aaaaa".length < 10 ∧
    (isPassword 0).isValid [] "password" (Value.str "Aa1!") = Except.ok false ∧
    passwordTest "Aa1!aaaaa" = true ∧ passwordTest "Aa1!" = false := by
  exact ⟨rfl, by decide, rfl, rfl, rfl⟩

/-- C2: the claim says initialValidation carries, under each property,
the same keys as a validate report, including a property-level isValid
key seeded false.  In the code the per-property objects of
initialValidation hold only the rule-name keys: for the email schema
they are ["isValidEmail"], while every validate report's email object
has keys ["isValidEmail", "isValid"].  The booleans that are present
are indeed all false. -/
theorem initialValidation_missing_isValid_key :
    (initialValidation schemaEmail).props.map (fun e => (e.1, initPropKeys e.2)) =
      [("email", ["isValidEmail"])] ∧
    (validate schemaEmail [("email", Value.str "email@domain.com")]).map
      (fun r => r.props.map (fun e => (e.1, e.2.keys))) =
      Except.ok [("email", ["isValidEmail", "isValid"])] ∧
    (initialValidation schemaEmail).isValid = false ∧
    (initialValidation schemaEmail).props.map (fun e => e.2.map Prod.snd) = [[false]] ∧
    (["isValidEmail"] : List String) ≠ ["isValidEmail", "isValid"] := by
  exact ⟨rfl, rfl, rfl, rfl, by decide⟩

/-- C3: in every report validate resolves to, the top-level isValid is
the conjunction of the per-property isValid flags, each property's
isValid is the conjunction of its rule outcomes, the report's
properties are exactly the schema's in order, and a property with zero
rules is vacuously valid. -/
theorem validate_aggregation (schema : Schema) (t : Target) (r : Report)
    (h : validate schema t = Except.ok r) :
    r.props.map Prod.fst = schema.map Prod.fst ∧
    r.isValid = (r.props.map (fun pe => pe.2.isValid)).all (fun b => b) ∧
    (∀ pe, pe ∈ r.props → pe.2.isValid = (pe.2.rules.map Prod.snd).all (fun b => b)) ∧
    (∀ pe, pe ∈ r.props → pe.2.rules = [] → pe.2.isValid = true) := by
  obtain ⟨hf, hagg⟩ := validate_ok_spec schema t r h
  refine ⟨forall₂_map_eq hf Prod.fst Prod.fst (fun a b hab => hab.1), hagg, ?_, ?_⟩
  · intro pe hpe
    obtain ⟨se, _, _, _, hval⟩ := forall₂_mem_right hf hpe
    exact hval
  · intro pe hpe hnil
    obtain ⟨se, _, _, _, hval⟩ := forall₂_mem_right hf hpe
    simp [hval, hnil]

/-- Witness for C3 at the answer schema and target answer = 42. -/
theorem validate_aggregation_witness :
    (Report.mk [("answer", ⟨[("isValidAnswer", true)], true⟩)] true).isValid =
      ((Report.mk [("answer", ⟨[("isValidAnswer", true)], true⟩)] true).props.map
        (fun pe => pe.2.isValid)).all (fun b => b) := by
  exact (validate_aggregation schemaAnswer [("answer", Value.num 42)]
    ⟨[("answer", ⟨[("isValidAnswer", true)], true⟩)], true⟩ rfl).2.1

/-- C4: validate rejects exactly when some rule's promise rejects at
the value looked up for its property, the rejection reason reaching the
caller is one produced by a rule (the engine catches nothing), and a
rejection never comes with a report (the Except value holds either a
report or an error, never both). -/
theorem validate_error_propagation (schema : Schema) (t : Target) :
    (∀ e, validate schema t = Except.error e →
      ∃ p rules rn rule, (p, rules) ∈ schema ∧ (rn, rule) ∈ rules ∧
        rule.isValid t p (getProp t p) = Except.error e) ∧
    ((∃ p rules rn rule e, (p, rules) ∈ schema ∧ (rn, rule) ∈ rules ∧
        rule.isValid t p (getProp t p) = Except.error e) →
      ∃ e2, validate schema t = Except.error e2) := by
  constructor
  · intro e h
    cases h1 : validateProps t schema with
    | error e2 =>
      simp only [validate, h1, Except.error.injEq] at h
      subst h
      exact validateProps_error_spec t schema e2 h1
    | ok pr =>
      obtain ⟨props, agg⟩ := pr
      simp [validate, h1] at h
  · rintro ⟨p, rules, rn, rule, e, hp, hr, herr⟩
    cases h1 : validate schema t with
    | error e2 => exact ⟨e2, rfl⟩
    | ok r =>
      obtain ⟨b, hb⟩ := validate_ok_rules_ok schema t r h1 p rules hp rn rule hr
      rw [herr] at hb
      simp at hb

/-- Witness for C4: validating against a schema holding an
always-rejecting rule fails. -/
theorem validate_error_propagation_witness :
    ∃ e, validate schemaFailing [] = Except.error e := by
  exact (validate_error_propagation schemaFailing []).2
    ⟨"x", [("alwaysRejects", failingRule)], "alwaysRejects", failingRule, "rejected",
      List.mem_cons_self _ _, List.mem_cons_self _ _, rfl⟩

/-- C5: when every rule resolves, validate resolves even for targets
missing schema properties: every schema property appears in the report
with a definite boolean for each of its rules, the boolean being what
the rule resolved to on the looked-up value, and a property absent from
the target is looked up as the undefined value. -/
theorem validate_absent_property_safe (schema : Schema) (t : Target)
    (hall : ∀ p rules, (p, rules) ∈ schema → ∀ rn rule, (rn, rule) ∈ rules →
      ∃ b, rule.isValid t p (getProp t p) = Except.ok b) :
    ∃ r, validate schema t = Except.ok r ∧
      r.props.map Prod.fst = schema.map Prod.fst ∧
      (∀ p rules, (p, rules) ∈ schema → ∃ pr, (p, pr) ∈ r.props ∧
        ∀ rn rule, (rn, rule) ∈ rules →
          ∃ b, (rn, b) ∈ pr.rules ∧ rule.isValid t p (getProp t p) = Except.ok b) ∧
      (∀ p, t.find? (fun entry => entry.1 == p) = none → getProp t p = Value.undefined) := by
  obtain ⟨props, agg, h1⟩ := validateProps_total t schema hall
  obtain ⟨hf, _⟩ := validateProps_ok_spec t schema props agg h1
  refine ⟨⟨props, agg⟩, by simp [validate, h1], ?_, ?_, ?_⟩
  · exact forall₂_map_eq hf Prod.fst Prod.fst (fun a b hab => hab.1)
  · intro p rules hp
    obtain ⟨pe, hpe, hname, hrules, hval⟩ := forall₂_mem_left hf hp
    obtain ⟨pname, prep⟩ := pe
    subst hname
    refine ⟨prep, hpe, ?_⟩
    intro rn rule hr
    obtain ⟨be, hbe, hbname, hbok⟩ := forall₂_mem_left hrules hr
    obtain ⟨bn, bb⟩ := be
    subst hbname
    exact ⟨bb, hbe, hbok⟩
  · intro p hfind
    simp [getProp, hfind]

/-- Witness for C5: the email schema validated against the empty
target, where the email property is absent. -/
theorem validate_absent_property_safe_witness :
    ∃ r, validate schemaEmail [] = Except.ok r ∧
      r.props.map Prod.fst = schemaEmail.map Prod.fst := by
  have hall : ∀ p rules, (p, rules) ∈ schemaEmail → ∀ rn rule, (rn, rule) ∈ rules →
      ∃ b, rule.isValid [] p (getProp [] p) = Except.ok b := by
    intro p rules hp rn rule hr
    simp only [schemaEmail, List.mem_singleton, Prod.mk.injEq] at hp
    obtain ⟨rfl, rfl⟩ := hp
    simp only [List.mem_singleton, Prod.mk.injEq] at hr
    obtain ⟨rfl, rfl⟩ := hr
    exact ⟨false, rfl⟩
  obtain ⟨r, h1, h2, _, _⟩ := validate_absent_property_safe schemaEmail [] hall
  exact ⟨r, h1, h2⟩

/-- C6: two validate calls on the same schema and target that both
resolve yield reports that are equal field by field. -/
theorem validate_deterministic (schema : Schema) (t : Target) (r₁ r₂ : Report)
    (h₁ : validate schema t = Except.ok r₁) (h₂ : validate schema t = Except.ok r₂) :
    r₁.props = r₂.props ∧ r₁.isValid = r₂.isValid := by
  rw [h₁] at h₂
  injection h₂ with h
  subst h
  exact ⟨rfl, rfl⟩

/-- Witness for C6 at the answer schema. -/
theorem validate_deterministic_witness :
    (Report.mk [("answer", ⟨[("isValidAnswer", true)], true⟩)] true).isValid =
      (Report.mk [("answer", ⟨[("isValidAnswer", true)], true⟩)] true).isValid := by
  exact (validate_deterministic schemaAnswer [("answer", Value.num 42)]
    ⟨[("answer", ⟨[("isValidAnswer", true)], true⟩)], true⟩
    ⟨[("answer", ⟨[("isValidAnswer", true)], true⟩)], true⟩ rfl rfl).2

/-- C7: isNumberEqualTo(n) resolves true exactly on the number n, and
the answer scenario validates as the spec states: target answer = 42
gives an all-true report, target answer = "42" gives isValidAnswer
false. -/
theorem isNumberEqualTo_spec (n : Int) (t : Target) (p : String) (v : Value) :
    ((isNumberEqualTo n).isValid t p v = Except.ok true ↔
      v.isNumberType = true ∧ v = Value.num n) ∧
    validate schemaAnswer [("answer", Value.num 42)] =
      Except.ok ⟨[("answer", ⟨[("isValidAnswer", true)], true⟩)], true⟩ ∧
    validate schemaAnswer [("answer", Value.str "42")] =
      Except.ok ⟨[("answer", ⟨[("isValidAnswer", false)], false⟩)], false⟩ := by
  refine ⟨?_, rfl, rfl⟩
  rcases v with m | s | _
  · simp [isNumberEqualTo, Value.isNumberType, eq_comm]
  · simp [isNumberEqualTo, Value.isNumberType]
  · simp [isNumberEqualTo, Value.isNumberType]

/-- C8: the email scenarios: "email@domain.com" passes the email
schema with an all-true report, "email@domain" yields a report with
top-level isValid, email.isValid and isValidEmail all false. -/
theorem isEmail_scenarios :
    validate schemaEmail [("email", Value.str "email@domain.com")] =
      Except.ok ⟨[("email", ⟨[("isValidEmail", true)], true⟩)], true⟩ ∧
    validate schemaEmail [("email", Value.str "email@domain")] =
      Except.ok ⟨[("email", ⟨[("isValidEmail", false)], false⟩)], false⟩ := by
  exact ⟨rfl, rfl⟩

/-- C9: doesMatch and doesNotMatch resolve false on every non-string
value, resolve false when the matching attempt throws (the try/catch
converts the error), and otherwise test respectively negate the
match. -/
theorem doesMatch_catalog_spec (test : String → Except String Bool)
    (t : Target) (p : String) (v : Value) :
    (v.isStringType = false →
      (doesMatch test).isValid t p v = Except.ok false ∧
      (doesNotMatch test).isValid t p v = Except.ok false) ∧
    (∀ s e, test s = Except.error e →
      (doesMatch test).isValid t p (Value.str s) = Except.ok false ∧
      (doesNotMatch test).isValid t p (Value.str s) = Except.ok false) ∧
    (∀ s b, test s = Except.ok b →
      (doesMatch test).isValid t p (Value.str s) = Except.ok b ∧
      (doesNotMatch test).isValid t p (Value.str s) = Except.ok (!b)) := by
  refine ⟨?_, ?_, ?_⟩
  · intro hv
    rcases v with m | s | _
    · exact ⟨rfl, rfl⟩
    · simp [Value.isStringType] at hv
    · exact ⟨rfl, rfl⟩
  · intro s e he
    simp [doesMatch, doesNotMatch, tryCatchFalse, he, Except.map]
  · intro s b hb
    simp [doesMatch, doesNotMatch, tryCatchFalse, hb, Except.map]

/-- Witness for C9: a throwing matcher resolves false on a non-string
and on a string. -/
theorem doesMatch_catalog_spec_witness :
    (doesMatch throwingTest).isValid [] "code" (Value.num 1) = Except.ok false ∧
    (doesNotMatch throwingTest).isValid [] "code" (Value.str "abc") = Except.ok false := by
  constructor
  · exact ((doesMatch_catalog_spec throwingTest [] "code" (Value.num 1)).1 rfl).1
  · exact ((doesMatch_catalog_spec throwingTest [] "code" (Value.str "abc")).2.1
      "abc" "thrown" rfl).2

/-- C10: isEqualToProperty(other) resolves true exactly when the value
under the other name strictly equals the checked value, with no type or
presence check; when both the checked property and the other property
are absent, both lookups give the undefined value and the rule
passes. -/
theorem isEqualToProperty_spec (other : String) (t : Target) (p : String) (v : Value) :
    ((isEqualToProperty other).isValid t p v = Except.ok true ↔ getProp t other = v) ∧
    (getProp t p = Value.undefined → getProp t other = Value.undefined →
      (isEqualToProperty other).isValid t p (getProp t p) = Except.ok true) := by
  constructor
  · simp [isEqualToProperty]
  · intro h1 h2
    simp [isEqualToProperty, h1, h2]

/-- Witness for C10: on the empty target, comparing the absent
confirmation property against the absent password property passes. -/
theorem isEqualToProperty_spec_witness :
    (isEqualToProperty "password").isValid [] "confirmation"
      (getProp [] "confirmation") = Except.ok true := by
  exact (isEqualToProperty_spec "password" [] "confirmation" Value.undefined).2 rfl rfl

end Validation





